import Mathlib

/-! Verification of the apartment-scraper core against its specification.
    The data model, cache store, retry policy, listing-card parsing, date
    and price normalization, and detail enrichment are shallowly embedded
    from the Python sources (src/src/models.py, src/src/core/cache.py,
    src/src/core/olx_api.py), and the stated properties are proved or
    refuted over that embedding. -/

namespace Olx

/-- Calendar date standing for the wall-clock date the code reads with
    datetime.now() in src/src/core/olx_api.py. -/
structure SimpleDate where
  day : Nat
  month : Nat
  year : Nat
  deriving Repr, DecidableEq

/-- The Apartment dataclass of src/src/models.py.  Prices are parsed from
    pure digit runs, so the Python float is represented exactly by Nat;
    total_area may carry a decimal point and is represented by Rat. -/
structure Apartment where
  post_id : String
  name : String := ""
  price : Nat := 0
  currency : String := "UAH"
  location : String := ""
  description : String := ""
  contact_phone : Option String := none
  photos : List String := []
  created_date : Option String := none
  watch_count : Option Nat := none
  tags : List String := []
  url : String := ""
  total_area : Option Rat := none
  floor : Option Nat := none
  total_floors : Option Nat := none
  rooms : Option Nat := none
  district : Option String := none
  furnished : Option Bool := none
  scraped_at : String := ""
  deriving Repr, DecidableEq

/-! ## Cache store (src/src/core/cache.py)

    The persisted CSV file is abstracted to the list of records written,
    in order; load_cached_apartments returns that list.  A Python dict
    keyed by post_id is an association list with insertion-order
    semantics: assignment replaces the value in place when the key is
    present and appends otherwise. -/

/-- Association-list model of a Python dict from post_id to Apartment. -/
abbrev IdDict := List (String × Apartment)

/-- Python dict assignment d[k] = v: replace in place when the key is
    present, append otherwise. -/
def upsert : IdDict → String → Apartment → IdDict
  | [], k, v => [(k, v)]
  | p :: d, k, v => if p.1 = k then (k, v) :: d else p :: upsert d k v

/-- Folding a record list into a dict keyed by post_id: the dict
    comprehension and the update loop of CacheManager.save_apartments
    (src/src/core/cache.py, lines 78-87). -/
def toDict (apts : List Apartment) (init : IdDict) : IdDict :=
  apts.foldl (fun d a => upsert d a.post_id a) init

/-- CacheManager.save_apartments (src/src/core/cache.py, lines 65-94).
    An empty input returns without touching the store; append=true loads
    the existing records, merges by post_id with incoming records
    winning, and writes the dict values; append=false writes the batch
    as given. -/
def saveApartments (state : List Apartment) (apts : List Apartment)
    (append : Bool) : List Apartment :=
  if apts.isEmpty then state
  else if append then (toDict apts (toDict state [])).map Prod.snd
  else apts

/-- CacheManager.load_cached_apartments (src/src/core/cache.py, lines
    34-53), with CSV deserialization abstracted: the persisted list. -/
def loadCached (state : List Apartment) : List Apartment := state

/-- CacheManager.find_new_apartments (src/src/core/cache.py, lines
    112-134): keep the current records whose post_id is absent from the
    cached id set. -/
def findNewApartments (current cached : List Apartment) : List Apartment :=
  current.filter (fun a => ! cached.any (fun b => b.post_id == a.post_id))

/-- A record list holds no two entries with the same post_id. -/
def distinctIds (apts : List Apartment) : Prop :=
  (apts.map (fun a => a.post_id)).Nodup

instance (apts : List Apartment) : Decidable (distinctIds apts) := by
  unfold distinctIds; infer_instance

/-- A sequence of save operations applied to a store state; each
    operation carries its batch and its append flag. -/
def applyOps (ops : List (List Apartment × Bool))
    (state : List Apartment) : List Apartment :=
  ops.foldl (fun s op => saveApartments s op.1 op.2) state

/-- Apartment equality as defined by the dunder eq of src/src/models.py
    (lines 68-72): comparison of post_id only. -/
def aptBeq (a b : Apartment) : Bool := a.post_id == b.post_id

/-- Apartment hashing as defined by the dunder hash of src/src/models.py
    (lines 64-66): a fixed hash function applied to post_id alone. -/
def aptHash (a : Apartment) : UInt64 := a.post_id.hash

/-! ### Dictionary lemmas -/

/-- Lookup of the value stored under a key, first occurrence. -/
def lookupId (d : IdDict) (k : String) : Option Apartment :=
  (d.find? (fun p => p.1 == k)).map Prod.snd

/-- Last element of a record list bearing a given post_id, the winner of
    repeated dict assignment. -/
def lastWith : List Apartment → String → Option Apartment
  | [], _ => none
  | a :: l, k =>
    match lastWith l k with
    | some b => some b
    | none => if a.post_id = k then some a else none

theorem lookupId_nil (k : String) : lookupId [] k = none := rfl

theorem lookupId_cons (p : String × Apartment) (d : IdDict) (k : String) :
    lookupId (p :: d) k = if p.1 = k then some p.2 else lookupId d k := by
  by_cases h : p.1 = k
  · have hb : (fun q : String × Apartment => q.1 == k) p = true := by
      simpa using h
    simp [lookupId, List.find?_cons_of_pos _ hb, h]
  · have hb : ¬ ((fun q : String × Apartment => q.1 == k) p = true) := by
      simpa using h
    simp [lookupId, List.find?_cons_of_neg _ hb, h]

theorem lookupId_upsert (d : IdDict) (k : String) (v : Apartment)
    (k' : String) :
    lookupId (upsert d k v) k' = if k' = k then some v else lookupId d k' := by
  induction d with
  | nil =>
    show lookupId [(k, v)] k' = _
    rw [lookupId_cons, lookupId_nil]
    by_cases h : k' = k
    · simp [h]
    · rw [if_neg (fun hh : k = k' => h hh.symm), if_neg h]
  | cons p d ih =>
    by_cases hp : p.1 = k
    · rw [show upsert (p :: d) k v = (k, v) :: d from by simp [upsert, hp]]
      rw [lookupId_cons, lookupId_cons]
      by_cases h : k' = k
      · subst h; simp
      · rw [if_neg (fun hh : k = k' => h hh.symm), if_neg h,
          if_neg (fun hh : p.1 = k' => h (hp ▸ hh).symm)]
    · rw [show upsert (p :: d) k v = p :: upsert d k v from by
        simp [upsert, hp]]
      rw [lookupId_cons, lookupId_cons, ih]
      by_cases hq : p.1 = k'
      · have h : ¬ k' = k := fun hh => hp (hq.trans hh)
        simp [hq, h]
      · by_cases h : k' = k
        · subst h
          simp [hq]
        · simp [hq, h]

theorem lookupId_toDict (l : List Apartment) (init : IdDict) (k : String) :
    lookupId (toDict l init) k =
      match lastWith l k with
      | some b => some b
      | none => lookupId init k := by
  induction l generalizing init with
  | nil => simp [toDict, lastWith]
  | cons a l ih =>
    have step : toDict (a :: l) init = toDict l (upsert init a.post_id a) := rfl
    rw [step, ih]
    cases hl : lastWith l k with
    | some b => simp [lastWith, hl]
    | none =>
      by_cases h : a.post_id = k
      · simp [lastWith, hl, h, lookupId_upsert]
      · have h' : ¬ (k = a.post_id) := fun hh => h hh.symm
        simp [lastWith, hl, h, h', lookupId_upsert]

/-- Well-formedness of a dict built by keyed inserts: keys are distinct
    and every value carries its key as post_id. -/
def dictWF (d : IdDict) : Prop :=
  (d.map Prod.fst).Nodup ∧ ∀ p ∈ d, p.2.post_id = p.1

theorem mem_keys_upsert (d : IdDict) (k : String) (v : Apartment)
    (k' : String) :
    k' ∈ (upsert d k v).map Prod.fst ↔
      k' ∈ d.map Prod.fst ∨ k' = k := by
  induction d with
  | nil => simp [upsert]
  | cons p d ih =>
    by_cases hp : p.1 = k
    · subst hp
      by_cases h : k' = p.1 <;> simp [upsert, h]
    · simp only [upsert, if_neg hp, List.map_cons, List.mem_cons, ih]
      tauto

theorem dictWF_upsert (d : IdDict) (k : String) (v : Apartment)
    (hwf : dictWF d) (hv : v.post_id = k) : dictWF (upsert d k v) := by
  obtain ⟨hnd, hent⟩ := hwf
  induction d with
  | nil => exact ⟨by simp [upsert], by simp [upsert, hv]⟩
  | cons p d ih =>
    by_cases hp : p.1 = k
    · refine ⟨?_, ?_⟩
      · simpa [upsert, hp, hp ▸ (List.nodup_cons.mp hnd).1] using
          (List.nodup_cons.mp hnd).2
      · intro q hq
        simp only [upsert, if_pos hp, List.mem_cons] at hq
        rcases hq with rfl | hq
        · exact hv
        · exact hent q (List.mem_cons_of_mem _ hq)
    · have hnd' := List.nodup_cons.mp hnd
      have ihres := ih hnd'.2 (fun q hq => hent q (List.mem_cons_of_mem _ hq))
      refine ⟨?_, ?_⟩
      · simp only [upsert, if_neg hp, List.map_cons]
        refine List.nodup_cons.mpr ⟨?_, ihres.1⟩
        rw [mem_keys_upsert]
        rintro (h | h)
        · exact hnd'.1 h
        · exact hp h
      · intro q hq
        simp only [upsert, if_neg hp, List.mem_cons] at hq
        rcases hq with rfl | hq
        · exact hent q (List.mem_cons_self _ _)
        · exact ihres.2 q hq

theorem dictWF_toDict (l : List Apartment) (init : IdDict)
    (h : dictWF init) : dictWF (toDict l init) := by
  induction l generalizing init with
  | nil => exact h
  | cons a l ih => exact ih _ (dictWF_upsert _ _ _ h rfl)

theorem dictWF_nil : dictWF [] := ⟨List.nodup_nil, by simp⟩

/-- With distinct keys, membership in a dict is lookup success. -/
theorem mem_iff_lookupId (d : IdDict) (hnd : (d.map Prod.fst).Nodup)
    (k : String) (v : Apartment) :
    (k, v) ∈ d ↔ lookupId d k = some v := by
  induction d with
  | nil => simp [lookupId_nil]
  | cons p d ih =>
    have hnd' := List.nodup_cons.mp
      (show (p.1 :: d.map Prod.fst).Nodup from hnd)
    rw [List.mem_cons, lookupId_cons]
    by_cases hp : p.1 = k
    · rw [if_pos hp]
      constructor
      · rintro (rfl | hmem)
        · simp
        · exact absurd
            (by rw [hp]; exact List.mem_map.mpr ⟨(k, v), hmem, rfl⟩)
            hnd'.1
      · intro h
        left
        rw [← hp, Prod.ext_iff]
        exact ⟨rfl, (Option.some.inj h).symm⟩
    · rw [if_neg hp, ← ih hnd'.2]
      constructor
      · rintro (rfl | hmem)
        · exact absurd rfl hp
        · exact hmem
      · exact fun h => Or.inr h

theorem mem_map_snd_iff (d : IdDict) (hwf : dictWF d) (r : Apartment) :
    r ∈ d.map Prod.snd ↔ lookupId d r.post_id = some r := by
  constructor
  · intro h
    obtain ⟨p, hp, hpr⟩ := List.mem_map.mp h
    have hk : p.1 = r.post_id := by rw [← hpr]; exact (hwf.2 p hp).symm
    have : (r.post_id, r) ∈ d := by
      have : p = (r.post_id, r) := by
        cases p; simp_all
      exact this ▸ hp
    exact (mem_iff_lookupId d hwf.1 _ _).mp this
  · intro h
    have := (mem_iff_lookupId d hwf.1 _ _).mpr h
    exact List.mem_map.mpr ⟨(r.post_id, r), this, rfl⟩

theorem lastWith_none_iff (l : List Apartment) (k : String) :
    lastWith l k = none ↔ k ∉ l.map (fun a => a.post_id) := by
  induction l with
  | nil => simp [lastWith]
  | cons a l ih =>
    cases hl : lastWith l k with
    | some b =>
      have hin : k ∈ l.map (fun a => a.post_id) := by
        by_contra hc
        rw [ih.mpr hc] at hl
        cases hl
      simp [lastWith, hl, hin]
    | none =>
      by_cases h : a.post_id = k
      · simp [lastWith, hl, h]
      · have h' : ¬ k = a.post_id := fun hh => h hh.symm
        simp [lastWith, hl, h, h', ih.mp hl]

theorem lastWith_mem (l : List Apartment) (k : String) (b : Apartment)
    (h : lastWith l k = some b) : b ∈ l ∧ b.post_id = k := by
  induction l with
  | nil => cases h
  | cons a l ih =>
    cases hl : lastWith l k with
    | some c =>
      rw [show lastWith (a :: l) k = some c from by simp [lastWith, hl]] at h
      cases Option.some.inj h
      exact ⟨List.mem_cons_of_mem _ (ih hl).1, (ih hl).2⟩
    | none =>
      by_cases ha : a.post_id = k
      · rw [show lastWith (a :: l) k = some a from by
          simp [lastWith, hl, ha]] at h
        cases Option.some.inj h
        exact ⟨List.mem_cons_self _ _, ha⟩
      · rw [show lastWith (a :: l) k = none from by
          simp [lastWith, hl, ha]] at h
        cases h

theorem lastWith_eq_some (l : List Apartment) (hnd : distinctIds l)
    (k : String) (r : Apartment) (hmem : r ∈ l) (hpk : r.post_id = k) :
    lastWith l k = some r := by
  induction l with
  | nil => cases hmem
  | cons a l ih =>
    have hnd' := List.nodup_cons.mp
      (show (a.post_id :: l.map (fun a => a.post_id)).Nodup from hnd)
    rcases List.mem_cons.mp hmem with heq | hmem'
    · have hak : a.post_id = k := by rw [← heq]; exact hpk
      have hl : lastWith l k = none := by
        rw [lastWith_none_iff]
        intro hin
        exact hnd'.1 (by rw [hak]; exact hin)
      rw [heq]
      simp [lastWith, hl, hak]
    · have := ih hnd'.2 hmem'
      simp [lastWith, this]

theorem lastWith_some_iff (l : List Apartment) (hnd : distinctIds l)
    (k : String) (r : Apartment) :
    lastWith l k = some r ↔ r ∈ l ∧ r.post_id = k :=
  ⟨fun h => lastWith_mem l k r h,
   fun h => lastWith_eq_some l hnd k r h.1 h.2⟩

/-- Identity-keyed distinctness of every append-merge result. -/
theorem distinctIds_save_append (state apts : List Apartment)
    (h : ¬ apts.isEmpty) :
    distinctIds (saveApartments state apts true) := by
  have hwf : dictWF (toDict apts (toDict state [])) :=
    dictWF_toDict _ _ (dictWF_toDict _ _ dictWF_nil)
  have hids :
      (toDict apts (toDict state [])).map (fun p => p.2.post_id) =
      (toDict apts (toDict state [])).map Prod.fst :=
    List.map_congr_left (fun p hp => hwf.2 p hp)
  unfold saveApartments
  rw [if_neg h, if_pos rfl]
  unfold distinctIds
  rw [List.map_map]
  show ((toDict apts (toDict state [])).map
    (fun p => p.2.post_id)).Nodup
  rw [hids]
  exact hwf.1

/-- Membership characterization of the append-merge. -/
theorem mem_save_append (state apts : List Apartment)
    (hne : ¬ apts.isEmpty) (hstate : distinctIds state)
    (hapts : distinctIds apts) (r : Apartment) :
    r ∈ saveApartments state apts true ↔
      r ∈ apts ∨ (r ∈ state ∧
        r.post_id ∉ apts.map (fun a => a.post_id)) := by
  unfold saveApartments
  rw [if_neg hne, if_pos rfl]
  have hwf : dictWF (toDict apts (toDict state [])) :=
    dictWF_toDict _ _ (dictWF_toDict _ _ dictWF_nil)
  rw [mem_map_snd_iff _ hwf r, lookupId_toDict, lookupId_toDict]
  cases hB : lastWith apts r.post_id with
  | some b =>
    have hb := (lastWith_some_iff apts hapts _ _).mp hB
    have hin : r.post_id ∈ apts.map (fun a => a.post_id) :=
      List.mem_map.mpr ⟨b, hb.1, hb.2⟩
    constructor
    · intro h
      cases Option.some.inj h
      exact Or.inl hb.1
    · rintro (hr | ⟨_, hnotin⟩)
      · have : lastWith apts r.post_id = some r :=
          (lastWith_some_iff apts hapts _ _).mpr ⟨hr, rfl⟩
        rw [hB] at this
        exact this
      · exact absurd hin hnotin
  | none =>
    have hnot : r.post_id ∉ apts.map (fun a => a.post_id) :=
      (lastWith_none_iff apts _).mp hB
    have hnotmem : r ∉ apts := fun h =>
      hnot (List.mem_map.mpr ⟨r, h, rfl⟩)
    cases hP : lastWith state r.post_id with
    | some b =>
      have hb := (lastWith_some_iff state hstate _ _).mp hP
      constructor
      · intro h
        cases Option.some.inj h
        exact Or.inr ⟨hb.1, hnot⟩
      · rintro (hr | ⟨hr, _⟩)
        · exact absurd hr hnotmem
        · have : lastWith state r.post_id = some r :=
            (lastWith_some_iff state hstate _ _).mpr ⟨hr, rfl⟩
          rw [hP] at this
          exact this
    | none =>
      have hnotstate : r ∉ state := fun h =>
        (lastWith_none_iff state _).mp hP (List.mem_map.mpr ⟨r, h, rfl⟩)
      rw [lookupId_nil]
      constructor
      · intro h
        cases h
      · rintro (hr | ⟨hr, _⟩)
        · exact absurd hr hnotmem
        · exact absurd hr hnotstate

/-! ## Claim theorems for the cache store and the record identity -/

/-- Concrete records used in counterexamples and witnesses: aptA and
    aptB share post_id 1 and differ in content; aptC has post_id 2. -/
def aptA : Apartment := { post_id := "1", name := "a" }

def aptB : Apartment := { post_id := "1", name := "b" }

def aptC : Apartment := { post_id := "2", name := "c" }

/-- C1: counterexample.  The claim states that the persisted record set
    never holds two entries with the same id, even when the input list
    passed to save itself contains two records with the same post_id.
    Saving the duplicate-id batch [aptA, aptB] with append=false writes
    it verbatim, so the persisted set holds two entries with post_id 1:
    the number of distinct ids (1) differs from the record count (2). -/
theorem save_replace_duplicate_ids_cex :
    saveApartments [] [aptA, aptB] false = [aptA, aptB] ∧
    ¬ distinctIds (loadCached (saveApartments [] [aptA, aptB] false)) ∧
    ((loadCached (saveApartments [] [aptA, aptB] false)).map
        (fun a => a.post_id)).dedup.length ≠
      (loadCached (saveApartments [] [aptA, aptB] false)).length := by
  refine ⟨by decide, by decide, by decide⟩

/-- C1 (amended): after any sequence of save operations starting from a
    store with distinct ids, the persisted ids stay distinct provided
    every batch saved with append=false has itself distinct post_ids;
    batches saved with append=true are deduplicated by the dict merge
    even when they contain repeated ids, while append=false persists
    the batch verbatim, duplicates included. -/
theorem save_sequence_distinct_ids (ops : List (List Apartment × Bool))
    (init : List Apartment) (hinit : distinctIds init)
    (hops : ∀ op ∈ ops, op.2 = false → distinctIds op.1) :
    distinctIds (loadCached (applyOps ops init)) := by
  induction ops generalizing init with
  | nil => exact hinit
  | cons op ops ih =>
    have hstep : distinctIds (saveApartments init op.1 op.2) := by
      by_cases hemp : op.1.isEmpty
      · unfold saveApartments
        rw [if_pos hemp]
        exact hinit
      · cases hb : op.2 with
        | true => exact distinctIds_save_append init op.1 hemp
        | false =>
          have hrepl : saveApartments init op.1 false = op.1 := by
            unfold saveApartments
            rw [if_neg hemp]
            simp
          rw [hrepl]
          exact hops op (List.mem_cons_self _ _) hb
    exact ih _ hstep (fun q hq hf => hops q (List.mem_cons_of_mem _ hq) hf)

theorem save_sequence_distinct_ids_witness :
    distinctIds
      (loadCached (applyOps [([aptA, aptC], false), ([aptB], true)] [])) :=
  save_sequence_distinct_ids [([aptA, aptC], false), ([aptB], true)] []
    (by decide) (by decide)

/-- C2: save with append=true followed by load yields exactly the
    identity-keyed union of the prior persisted set P and the batch B,
    with records of B replacing records of P of equal post_id
    field-for-field, and the operation is idempotent at the level of the
    persisted set.  P and B are identity-keyed sets, so their ids are
    distinct, and B is non-empty as the claim requires. -/
theorem save_append_union_spec (P B : List Apartment)
    (hne : B ≠ []) (hP : distinctIds P) (hB : distinctIds B) :
    (∀ r, r ∈ loadCached (saveApartments P B true) ↔
        r ∈ B ∨ (r ∈ P ∧ r.post_id ∉ B.map (fun a => a.post_id))) ∧
    distinctIds (loadCached (saveApartments P B true)) ∧
    (∀ r, r ∈ loadCached
          (saveApartments (saveApartments P B true) B true) ↔
        r ∈ loadCached (saveApartments P B true)) := by
  have hne' : ¬ B.isEmpty = true := by
    cases B
    · exact absurd rfl hne
    · simp
  refine ⟨fun r => mem_save_append P B hne' hP hB r,
    distinctIds_save_append P B hne', ?_⟩
  intro r
  have hR : distinctIds (saveApartments P B true) :=
    distinctIds_save_append P B hne'
  show r ∈ saveApartments (saveApartments P B true) B true ↔
    r ∈ saveApartments P B true
  rw [mem_save_append _ B hne' hR hB r, mem_save_append P B hne' hP hB r]
  constructor
  · rintro (h | ⟨h, hnotin⟩)
    · exact Or.inl h
    · rcases h with h | ⟨h2, _⟩
      · exact absurd (List.mem_map.mpr ⟨r, h, rfl⟩) hnotin
      · exact Or.inr ⟨h2, hnotin⟩
  · rintro (h | ⟨h, hnotin⟩)
    · exact Or.inl h
    · exact Or.inr ⟨Or.inr ⟨h, hnotin⟩, hnotin⟩

theorem save_append_union_spec_witness :
    aptC ∈ loadCached (saveApartments [aptA] [aptB, aptC] true) :=
  ((save_append_union_spec [aptA] [aptB, aptC] (by decide) (by decide)
      (by decide)).1 aptC).mpr (Or.inl (by decide))

/-- C3: counterexample.  The claim states that save with append=false
    fully replaces the persisted set, including for the empty list; but
    save_apartments returns early on an empty input, so a prior record
    survives a save of the empty list. -/
theorem save_replace_empty_cex :
    loadCached (saveApartments [aptA] [] false) = [aptA] ∧
    loadCached (saveApartments [aptA] [] false) ≠ [] := by
  refine ⟨by decide, by decide⟩

/-- C3 (amended): for every non-empty batch, save with append=false
    fully replaces the persisted set by exactly that batch; an empty
    batch leaves the store unchanged instead of clearing it. -/
theorem save_replace_nonempty_spec (P B : List Apartment) (hne : B ≠ []) :
    loadCached (saveApartments P B false) = B := by
  have hne' : ¬ B.isEmpty = true := by
    cases B
    · exact absurd rfl hne
    · simp
  simp [saveApartments, loadCached, hne']

theorem save_replace_nonempty_spec_witness :
    loadCached (saveApartments [aptA] [aptC] false) = [aptC] :=
  save_replace_nonempty_spec [aptA] [aptC] (by decide)

/-- C4: find_new_apartments returns exactly the sublist of the current
    batch whose post_id occurs in no record of the reference list, it
    preserves order as a sublist, it depends only on the post_ids of the
    reference list and on no other field, and it is deterministic. -/
theorem find_new_diff_spec (cur against : List Apartment) :
    (∀ r, r ∈ findNewApartments cur against ↔
        r ∈ cur ∧ ∀ a ∈ against, a.post_id ≠ r.post_id) ∧
    (findNewApartments cur against).Sublist cur ∧
    (∀ against2, against.map (fun a => a.post_id) =
        against2.map (fun a => a.post_id) →
      findNewApartments cur against2 = findNewApartments cur against) ∧
    findNewApartments cur against = findNewApartments cur against := by
  refine ⟨?_, List.filter_sublist _, ?_, rfl⟩
  · intro r
    rw [findNewApartments, List.mem_filter]
    constructor
    · rintro ⟨h1, h2⟩
      refine ⟨h1, fun a ha hpa => ?_⟩
      have h3 : against.any (fun b => b.post_id == r.post_id) = true :=
        List.any_eq_true.mpr ⟨a, ha, by simpa using hpa⟩
      rw [h3] at h2
      cases h2
    · rintro ⟨h1, h2⟩
      refine ⟨h1, ?_⟩
      have h3 : against.any (fun b => b.post_id == r.post_id) = false := by
        rw [← Bool.not_eq_true, List.any_eq_true]
        rintro ⟨a, ha, hpa⟩
        exact h2 a ha (by simpa using hpa)
      rw [h3]
      rfl
  · intro ag2 hmap
    unfold findNewApartments
    apply List.filter_congr
    intro a _
    have h1 : ∀ (l : List Apartment),
        l.any (fun b => b.post_id == a.post_id) =
          (l.map (fun b => b.post_id)).any (fun k => k == a.post_id) := by
      intro l
      induction l with
      | nil => rfl
      | cons x xs ihx => simp [ihx]
    rw [h1, h1, hmap]

theorem find_new_diff_spec_witness :
    aptC ∈ findNewApartments [aptB, aptC] [aptA] :=
  ((find_new_diff_spec [aptB, aptC] [aptA]).1 aptC).mpr
    ⟨by decide, by decide⟩

/-- C10: Apartment equality and hashing depend only on identity: the
    dunder eq comparison holds exactly when the post_ids are equal
    whatever the other fields hold, equal post_id implies equal hash,
    and a record whose post_id already occurs in the cached list is
    never reported as new by the diff. -/
theorem apartment_identity_eq_spec :
    (∀ a b : Apartment, aptBeq a b = true ↔ a.post_id = b.post_id) ∧
    (∀ a b : Apartment, a.post_id = b.post_id → aptHash a = aptHash b) ∧
    (∀ (cur cached : List Apartment) (r c : Apartment), c ∈ cached →
      aptBeq c r = true → r ∉ findNewApartments cur cached) := by
  refine ⟨?_, ?_, ?_⟩
  · intro a b
    simp [aptBeq]
  · intro a b h
    simp [aptHash, h]
  · intro cur cached r c hc hbeq hmem
    rw [findNewApartments, List.mem_filter] at hmem
    have h2 : cached.any (fun b => b.post_id == r.post_id) = true :=
      List.any_eq_true.mpr ⟨c, hc, hbeq⟩
    rw [h2] at hmem
    cases hmem.2

/-! ## Listing-card parsing (src/src/core/olx_api.py)

    BeautifulSoup markup access is abstracted: a Card carries the texts
    and attributes _parse_card reads from one l-card element, an
    Option-valued field standing for an element that may be absent.
    String scanning mirrors the regular expressions of the source over
    the character list of the text. -/

/-- Whitespace for the regex class backslash-s and for Python strip,
    restricted to the whitespace characters occurring in the markup. -/
def isSpaceCh (c : Char) : Bool :=
  c = ' ' || c = '\t' || c = '\n' || c = '\r' || c.toNat = 0xa0

/-- Word characters for the regex class backslash-w over the ASCII and
    Cyrillic ranges of the markup locale. -/
def isWordCh (c : Char) : Bool :=
  c.isAlphanum || c = '_' || (0x400 ≤ c.toNat && c.toNat ≤ 0x4FF)

/-- Numeric value of a run of ASCII digits. -/
def digitsToNat (ds : List Char) : Nat :=
  ds.foldl (fun n c => n * 10 + (c.toNat - 48)) 0

/-- Substring test, the Python in-operator on str. -/
def listSub : List Char → List Char → Bool
  | pat, [] => pat.isEmpty
  | pat, s@(_ :: cs) => pat.isPrefixOf s || listSub pat cs

def strContains (s pat : String) : Bool := listSub pat.data s.data

/-- Python strip of surrounding whitespace. -/
def stripCh (s : List Char) : List Char :=
  ((s.dropWhile isSpaceCh).reverse.dropWhile isSpaceCh).reverse

/-- re.search for the first maximal run of characters satisfying p. -/
def searchRun (p : Char → Bool) : List Char → Option (List Char)
  | [] => none
  | c :: cs => if p c then some ((c :: cs).takeWhile p) else searchRun p cs

/-- Python float() applied to the digit-and-whitespace text left after
    the space removal of the price branch: surrounding whitespace is
    stripped, a non-empty all-digit remainder parses, anything else
    raises ValueError (modelled by none). -/
def pyFloatDigits (cs : List Char) : Option Nat :=
  let t := stripCh cs
  if t.isEmpty then none
  else if t.all Char.isDigit then some (digitsToNat t)
  else none

/-- Currency inference of _parse_card (src/src/core/olx_api.py, lines
    233-239): the hryvnia marker wins over the dollar sign over the euro
    sign, defaulting to UAH. -/
def currencyOf (priceText : String) : String :=
  if strContains priceText "грн" then "UAH"
  else if strContains priceText "$" then "USD"
  else if strContains priceText "€" then "EUR"
  else "UAH"

/-- Price branch of _parse_card (src/src/core/olx_api.py, lines
    226-239): non-breaking spaces are removed, re.search finds the
    first run of digits and whitespace, spaces are removed from the run
    and float() is applied — a whitespace-only run makes float() raise,
    an error that the enclosing try turns into discarding the card —
    while no run at all leaves the 0 sentinel.  Returns price and
    currency, or the ValueError. -/
def priceBlock (priceText : String) : Except Unit (Nat × String) :=
  let cleaned := priceText.data.filter (fun c => !(c.toNat = 0xa0))
  match searchRun (fun c => c.isDigit || isSpaceCh c) cleaned with
  | none => .ok (0, currencyOf priceText)
  | some run =>
    match pyFloatDigits (run.filter (fun c => !(c = ' '))) with
    | none => .error ()
    | some v => .ok (v, currencyOf priceText)

/-- Formatting with two digits, the 02d field width of the f-string. -/
def pad2 (n : Nat) : String :=
  if n < 10 then "0" ++ toString n else toString n

/-- strftime day.month.year of _normalize_date. -/
def fmtDate (d : SimpleDate) : String :=
  pad2 d.day ++ "." ++ pad2 d.month ++ "." ++ toString d.year

/-- Ukrainian month-name table of _normalize_date
    (src/src/core/olx_api.py, lines 120-133). -/
def monthsUk : List (String × Nat) :=
  [("січня", 1), ("січ", 1), ("лютого", 2), ("лют", 2),
   ("березня", 3), ("бер", 3), ("квітня", 4), ("кві", 4),
   ("травня", 5), ("тра", 5), ("червня", 6), ("чер", 6),
   ("липня", 7), ("лип", 7), ("серпня", 8), ("сер", 8),
   ("вересня", 9), ("вер", 9), ("жовтня", 10), ("жов", 10),
   ("листопада", 11), ("лис", 11), ("грудня", 12), ("гру", 12)]

/-- Python str.lower over ASCII and the Cyrillic block. -/
def lowerCh (c : Char) : Char :=
  if 0x410 ≤ c.toNat && c.toNat ≤ 0x42F then Char.ofNat (c.toNat + 0x20)
  else if 0x400 ≤ c.toNat && c.toNat ≤ 0x40F then Char.ofNat (c.toNat + 0x50)
  else c.toLower

def lowerStr (s : String) : String := String.mk (s.data.map lowerCh)

/-- Tail of the date pattern after the day digits: one or more spaces, a
    word run, one or more spaces, four digits.  The word and whitespace
    classes are disjoint, so the greedy runs of the regex need no
    backtracking here. -/
def dateTail (dayDs : List Char) (rest : List Char) :
    Option (Nat × String × Nat) :=
  if (rest.takeWhile isSpaceCh).isEmpty then none
  else
    let r1 := rest.dropWhile isSpaceCh
    let w := r1.takeWhile isWordCh
    if w.isEmpty then none
    else
      let r2 := r1.dropWhile isWordCh
      if (r2.takeWhile isSpaceCh).isEmpty then none
      else
        let r3 := r2.dropWhile isSpaceCh
        let ds := r3.takeWhile Char.isDigit
        if ds.length < 4 then none
        else some (digitsToNat dayDs, String.mk w, digitsToNat (ds.take 4))

/-- The date pattern of _normalize_date tried at one position: one or
    two day digits, two preferred as in the greedy regex, then the
    tail. -/
def matchDateAt : List Char → Option (Nat × String × Nat)
  | [] => none
  | c1 :: rest1 =>
    if c1.isDigit then
      match rest1 with
      | c2 :: rest2 =>
        if c2.isDigit then
          match dateTail [c1, c2] rest2 with
          | some res => some res
          | none => dateTail [c1] rest1
        else dateTail [c1] rest1
      | [] => dateTail [c1] []
    else none

/-- re.search of the date pattern: the leftmost matching position
    wins. -/
def searchDate : List Char → Option (Nat × String × Nat)
  | [] => none
  | c :: cs =>
    match matchDateAt (c :: cs) with
    | some res => some res
    | none => searchDate cs

/-- OLXClient._normalize_date (src/src/core/olx_api.py, lines 95-146),
    with the wall-clock date passed explicitly.  Empty input and the
    today and yesterday words resolve against the clock; otherwise the
    day-month-year pattern is searched and the month name looked up in
    the table, an unknown name falling back to the current month; when
    nothing matches, the current date is returned. -/
def normalizeDate (dateStr : String) (today : SimpleDate) : String :=
  if dateStr = "" then fmtDate today
  else if strContains dateStr "Сьогодні" || strContains dateStr "Сегодня" then
    fmtDate today
  else if strContains dateStr "Вчора" || strContains dateStr "Вчера" then
    fmtDate { today with day := if today.day > 1 then today.day - 1 else 1 }
  else
    match searchDate dateStr.data with
    | some (day, monthName, year) =>
      let m := ((monthsUk.find? (fun p => p.1 == lowerStr monthName)).map
        Prod.snd).getD today.month
      pad2 day ++ "." ++ pad2 m ++ "." ++ toString year
    | none => fmtDate today

/-- Rational value of whole and fractional digit runs. -/
def ratOfDigits (whole frac : List Char) : Rat :=
  (digitsToNat whole : Rat) +
    (digitsToNat frac : Rat) / ((10 : Rat) ^ frac.length)

/-- re.search of the area pattern of _parse_card: digits, an optional
    dot-digits group, optional spaces, then the square-metre unit. -/
def areaSearch : List Char → Option Rat
  | [] => none
  | c :: cs =>
    if c.isDigit then
      let whole := (c :: cs).takeWhile Char.isDigit
      let rest := (c :: cs).dropWhile Char.isDigit
      let fracRest :=
        match rest with
        | '.' :: r =>
          if (r.takeWhile Char.isDigit).isEmpty then
            (([] : List Char), rest)
          else (r.takeWhile Char.isDigit, r.dropWhile Char.isDigit)
        | _ => (([] : List Char), rest)
      if ("м²".data).isPrefixOf (fracRest.2.dropWhile isSpaceCh) then
        some (ratOfDigits whole fracRest.1)
      else areaSearch cs
    else areaSearch cs

/-- Python split on the three-character separator space-hyphen-space. -/
def splitDash : List Char → List (List Char)
  | [] => [[]]
  | ' ' :: '-' :: ' ' :: rest => [] :: splitDash rest
  | c :: rest =>
    match splitDash rest with
    | g :: gs => (c :: g) :: gs
    | [] => [[c]]

/-- Python split on a comma. -/
def splitComma : List Char → List (List Char)
  | [] => [[]]
  | ',' :: rest => [] :: splitComma rest
  | c :: rest =>
    match splitComma rest with
    | g :: gs => (c :: g) :: gs
    | [] => [[c]]

/-- One l-card element as read by _parse_card: each field is the text
    or attribute the parser extracts, none standing for an absent
    element; raisesOnAccess models an exception thrown by the markup
    API while the card body runs, caught by the try of _parse_card. -/
structure Card where
  id? : Option String := none
  titleText? : Option String := none
  href? : Option String := none
  priceText? : Option String := none
  locationDateText? : Option String := none
  areaText? : Option String := none
  raisesOnAccess : Bool := false

/-- urljoin restricted to the shapes this code base passes: an absolute
    href is kept, a relative one is appended to the base. -/
def urljoin (base rel : String) : String :=
  if rel.startsWith "http" then rel else base ++ rel

/-- OLXClient._parse_card (src/src/core/olx_api.py, lines 202-299).
    Returns none for a missing or empty (falsy) id, a missing title
    element, an exception from markup access, or a ValueError from the
    price branch, all caught by the try of the source and logged;
    otherwise the partial record of the card. -/
def parseCard (today : SimpleDate) (base : String) (card : Card) :
    Option Apartment :=
  if card.raisesOnAccess then none
  else
    match card.id? with
    | none => none
    | some pid =>
      if pid = "" then none
      else
        match card.titleText? with
        | none => none
        | some title =>
          let url :=
            match card.href? with
            | some h => urljoin base h
            | none => ""
          let priceCur :=
            match card.priceText? with
            | none => Except.ok (0, "UAH")
            | some t => priceBlock t
          match priceCur with
          | .error _ => none
          | .ok pc =>
            let locDate :=
              match card.locationDateText? with
              | none => (("" : String), (none : Option String))
              | some t =>
                match splitDash t.data with
                | p0 :: p1 :: _ =>
                  (String.mk (stripCh p0),
                    some (normalizeDate (String.mk (stripCh p1)) today))
                | [p0] =>
                  (String.mk (stripCh p0), some (normalizeDate "" today))
                | [] => (("" : String), (none : Option String))
            let total_area :=
              match card.areaText? with
              | none => none
              | some t => areaSearch t.data
            let district :=
              match splitComma locDate.1.data with
              | _ :: d1 :: _ => some (String.mk (stripCh d1))
              | _ => none
            some { post_id := pid, name := title, price := pc.1,
                   currency := pc.2, location := locDate.1,
                   description := "", url := url,
                   created_date := locDate.2, total_area := total_area,
                   district := district }

/-- OLXClient.parse_listing_page (src/src/core/olx_api.py, lines
    173-200): each card is parsed inside a try, a failed or discarded
    card is skipped with a logged message and the loop continues with
    the next card. -/
def parseListingPage (today : SimpleDate) (base : String)
    (cards : List Card) : List Apartment :=
  cards.filterMap (parseCard today base)

/-- A filterMap whose function succeeds on every element keeps the
    length of the list. -/
theorem length_filterMap_all_isSome {α β : Type} (f : α → Option β) :
    ∀ (l : List α), (∀ c ∈ l, (f c).isSome) →
      (l.filterMap f).length = l.length := by
  intro l h
  induction l with
  | nil => rfl
  | cons a l ih =>
    have ha := h a (List.mem_cons_self _ _)
    cases hfa : f a with
    | none =>
      rw [hfa] at ha
      cases ha
    | some b =>
      rw [List.filterMap_cons, hfa]
      simp only [List.length_cons]
      rw [ih (fun c hc => h c (List.mem_cons_of_mem _ hc))]

/-- C6: a card whose extraction fails — missing identity, malformed
    price, or an exception while parsing it — is skipped and never
    aborts the page: for every page made of valid cards around one
    malformed card, parse_listing_page returns exactly the records of
    the valid cards, so one bad card among 20 valid cards yields the 20
    valid records, not zero and not an error. -/
theorem parse_page_skips_bad_card (today : SimpleDate) (base : String)
    (good1 good2 : List Card) (bad : Card)
    (hbad : parseCard today base bad = none)
    (hgood : ∀ c ∈ good1 ++ good2, (parseCard today base c).isSome) :
    parseListingPage today base (good1 ++ bad :: good2) =
      (good1 ++ good2).filterMap (parseCard today base) ∧
    (parseListingPage today base (good1 ++ bad :: good2)).length =
      good1.length + good2.length := by
  have h1 : parseListingPage today base (good1 ++ bad :: good2) =
      (good1 ++ good2).filterMap (parseCard today base) := by
    unfold parseListingPage
    rw [List.filterMap_append, List.filterMap_cons, hbad,
      ← List.filterMap_append]
  refine ⟨h1, ?_⟩
  rw [h1, length_filterMap_all_isSome _ _ hgood, List.length_append]

/-- A valid card: identity, title and a parsable price. -/
def goodCard : Card :=
  { id? := some "id1", titleText? := some "Flat",
    priceText? := some "15 000 грн" }

/-- A malformed card with no identity token. -/
def badCard : Card := { titleText? := some "broken" }

theorem parse_page_skips_bad_card_witness :
    (parseListingPage ⟨1, 1, 2025⟩ "https://www.olx.ua"
        (List.replicate 10 goodCard ++ badCard ::
          List.replicate 10 goodCard)).length = 20 := by
  have hg : ∀ c ∈ List.replicate 10 goodCard ++ List.replicate 10 goodCard,
      (parseCard ⟨1, 1, 2025⟩ "https://www.olx.ua" c).isSome := by
    intro c hc
    have hcg : c = goodCard := by
      rcases List.mem_append.mp hc with h | h <;>
        exact List.eq_of_mem_replicate h
    rw [hcg]
    rfl
  have h := parse_page_skips_bad_card ⟨1, 1, 2025⟩ "https://www.olx.ua"
    (List.replicate 10 goodCard) (List.replicate 10 goodCard) badCard rfl hg
  exact h.2.trans rfl

/-- C7: the claim is right about the examples it can reach — the price
    text 15 000 грн parses to 15000 UAH, a digitless text without
    whitespace leaves the 0 sentinel, and currency priority is hryvnia
    over dollar over euro with UAH default — but the digitless phrase
    за домовленістю breaks it: the space inside the phrase matches the
    digit-and-whitespace class of the regex, float() is applied to the
    empty remainder and raises ValueError, and _parse_card discards the
    whole card instead of keeping it with price 0, against the plain
    intent of the price-0 default the code itself sets up. -/
theorem price_parse_failing_input :
    priceBlock "15 000 грн" = .ok (15000, "UAH") ∧
    priceBlock "Безкоштовно" = .ok (0, "UAH") ∧
    priceBlock "15 000 $ грн" = .ok (15000, "UAH") ∧
    priceBlock "100 $" = .ok (100, "USD") ∧
    priceBlock "100 € $" = .ok (100, "USD") ∧
    priceBlock "100 €" = .ok (100, "EUR") ∧
    priceBlock "за домовленістю" = .error () ∧
    parseCard ⟨1, 1, 2025⟩ "https://www.olx.ua"
      { id? := some "8", titleText? := some "t",
        priceText? := some "за домовленістю" } = none :=
  ⟨rfl, rfl, rfl, rfl, rfl, rfl, rfl, rfl⟩

/-- C8: counterexample.  The claim says every input that cannot be
    parsed, including a date whose month name is not in the table, falls
    back to the current date; but an input matching the date pattern
    with an unknown month name keeps its own day and year and
    substitutes only the current month: with the clock at 12.10.2026,
    the input 05 abc 1999 normalizes to 05.10.1999, not 12.10.2026. -/
theorem normalize_date_unknown_month_cex :
    normalizeDate "05 abc 1999" ⟨12, 10, 2026⟩ = "05.10.1999" ∧
    normalizeDate "05 abc 1999" ⟨12, 10, 2026⟩ ≠
      fmtDate ⟨12, 10, 2026⟩ :=
  ⟨rfl, by decide⟩

/-- C8 (amended): with the wall clock at any date t, the relative form
    Сьогодні о 11:06 normalizes to t, the named-month form
    01 жовтня 2025 р. normalizes to 01.10.2025 through the fixed month
    table, and an input without an occurrence of the date pattern falls
    back to the current date; an input matching the pattern whose month
    name is outside the table keeps its day and year and takes the
    current month, instead of falling back to the current date. -/
theorem normalize_date_spec (t : SimpleDate) :
    normalizeDate "Сьогодні о 11:06" t = fmtDate t ∧
    normalizeDate "01 жовтня 2025 р." t = "01.10.2025" ∧
    (∀ s, strContains s "Сьогодні" = false →
      strContains s "Сегодня" = false →
      strContains s "Вчора" = false → strContains s "Вчера" = false →
      searchDate s.data = none → normalizeDate s t = fmtDate t) ∧
    (∀ s d mn y, strContains s "Сьогодні" = false →
      strContains s "Сегодня" = false →
      strContains s "Вчора" = false → strContains s "Вчера" = false →
      searchDate s.data = some (d, mn, y) →
      monthsUk.find? (fun p => p.1 == lowerStr mn) = none →
      normalizeDate s t =
        pad2 d ++ "." ++ pad2 t.month ++ "." ++ toString y) := by
  refine ⟨rfl, ?_, ?_, ?_⟩
  · unfold normalizeDate
    rw [if_neg (by decide), if_neg (by decide), if_neg (by decide)]
    simp only [show searchDate ("01 жовтня 2025 р.").data =
      some (1, "жовтня", 2025) from by decide]
    rw [show monthsUk.find? (fun p => p.1 == lowerStr "жовтня") =
      some ("жовтня", 10) from by decide]
    simp only [Option.map_some', Option.getD_some]
    decide
  · intro s h1 h2 h3 h4 h5
    unfold normalizeDate
    by_cases hs : s = ""
    · rw [if_pos hs]
    · rw [if_neg hs, if_neg (by simp [h1, h2]), if_neg (by simp [h3, h4]),
        h5]
  · intro s d mn y h1 h2 h3 h4 h5 h6
    unfold normalizeDate
    have hs : ¬ s = "" := by
      intro he
      rw [he] at h5
      cases h5
    rw [if_neg hs, if_neg (by simp [h1, h2]), if_neg (by simp [h3, h4])]
    simp only [h5]
    rw [h6]
    simp only [Option.map_none', Option.getD_none]

theorem normalize_date_spec_witness :
    normalizeDate "random text" ⟨12, 10, 2026⟩ = fmtDate ⟨12, 10, 2026⟩ :=
  (normalize_date_spec ⟨12, 10, 2026⟩).2.2.1 "random text" rfl rfl rfl rfl
    rfl

/-! ## Detail page enrichment (src/src/core/olx_api.py)

    fetch_detail_page_data reads the description element, the photo
    sources, the parameter paragraph texts and the watch-count element
    of one detail page; the page markup is abstracted to those values.
    enrich_apartment_data copies each key present in the fetched dict
    onto the record. -/

/-- One detail page as read by fetch_detail_page_data; fetchFails
    models an exception (network or parse) making the function return
    the empty dict. -/
structure DetailPage where
  fetchFails : Bool := false
  descText? : Option String := none
  photoSrcs : List String := []
  paramTexts? : Option (List String) := none
  watchText? : Option String := none

/-- The dict returned by fetch_detail_page_data: an Option field stands
    for key presence; watch_count distinguishes key absent (none), key
    present holding Python None (some none) and key present holding a
    number (some (some n)). -/
structure DetailData where
  description? : Option String := none
  photos? : Option (List String) := none
  floor? : Option Nat := none
  total_floors? : Option Nat := none
  rooms? : Option Nat := none
  furnished? : Option Bool := none
  tags? : Option (List String) := none
  watch_count? : Option (Option Nat) := none

/-- re.search of a label followed by optional whitespace and digits:
    the first label occurrence followed by a non-empty digit run
    wins. -/
def searchLabelNum (pat : List Char) : List Char → Option Nat
  | [] => none
  | s@(_ :: cs) =>
    if pat.isPrefixOf s then
      let ds := ((s.drop pat.length).dropWhile isSpaceCh).takeWhile
        Char.isDigit
      if ds.isEmpty then searchLabelNum pat cs
      else some (digitsToNat ds)
    else searchLabelNum pat cs

/-- re.search of the first digit run. -/
def firstNat : List Char → Option Nat
  | [] => none
  | c :: cs =>
    if c.isDigit then some (digitsToNat ((c :: cs).takeWhile Char.isDigit))
    else firstNat cs

/-- One iteration of the parameter loop of fetch_detail_page_data
    (src/src/core/olx_api.py, lines 399-423): each matching label
    overwrites the corresponding key; later parameters win. -/
def paramStep (d : DetailData) (text : String) : DetailData :=
  let d1 := if strContains text "Поверх:" then
      match searchLabelNum ("Поверх:").data text.data with
      | some n => { d with floor? := some n }
      | none => d
    else d
  let d2 := if strContains text "Поверховість:" then
      match searchLabelNum ("Поверховість:").data text.data with
      | some n => { d1 with total_floors? := some n }
      | none => d1
    else d1
  let d3 := if strContains text "Кількість кімнат:" then
      match firstNat text.data with
      | some n => { d2 with rooms? := some n }
      | none => d2
    else d2
  if strContains text "Меблювання:" then
    { d3 with furnished? := some (strContains text "З меблями" ||
        strContains text "З меблями частково") }
  else d3

/-- OLXClient.fetch_detail_page_data (src/src/core/olx_api.py, lines
    357-446): on success the dict holds the description when its
    element exists, always the http-prefixed photo list, the parameter
    extractions plus the full tag list when the parameter container
    exists, and the watch count — explicitly set to Python None when
    the watch element is absent; any exception yields the empty dict. -/
def fetchDetailPageData (page : DetailPage) : DetailData :=
  if page.fetchFails then {}
  else
    let d0 : DetailData := {}
    let d1 := match page.descText? with
      | some t => { d0 with description? := some t }
      | none => d0
    let photosVal := page.photoSrcs.filter (fun s => s.startsWith "http")
    let d2 := { d1 with photos? := some photosVal }
    let d3 := match page.paramTexts? with
      | some ts => { ts.foldl paramStep d2 with tags? := some ts }
      | none => d2
    match page.watchText? with
    | some t =>
      match firstNat t.data with
      | some n => { d3 with watch_count? := some (some n) }
      | none => d3
    | none => { d3 with watch_count? := some none }

/-- The per-key copy loop of enrich_apartment_data
    (src/src/core/olx_api.py, lines 499-515): a key present in the
    fetched dict replaces the record field, an absent key leaves it. -/
def applyDetail (apt : Apartment) (d : DetailData) : Apartment :=
  let a1 := match d.description? with
    | some v => { apt with description := v }
    | none => apt
  let a2 := match d.photos? with
    | some v => { a1 with photos := v }
    | none => a1
  let a3 := match d.floor? with
    | some v => { a2 with floor := some v }
    | none => a2
  let a4 := match d.total_floors? with
    | some v => { a3 with total_floors := some v }
    | none => a3
  let a5 := match d.rooms? with
    | some v => { a4 with rooms := some v }
    | none => a4
  let a6 := match d.furnished? with
    | some v => { a5 with furnished := some v }
    | none => a5
  let a7 := match d.watch_count? with
    | some v => { a6 with watch_count := v }
    | none => a6
  match d.tags? with
  | some v => { a7 with tags := v }
  | none => a7

/-- Storing a fetched phone: only a truthy (non-empty) result is
    written. -/
def phoneVal (apt : Apartment) (ph : Option String) : Apartment :=
  match ph with
  | some p => if p ≠ "" then { apt with contact_phone := some p }
    else apt
  | none => apt

/-- The phone branch of enrich_apartment_data (src/src/core/olx_api.py,
    lines 517-521): runs only when the caller asked for it and the
    record id is truthy. -/
def phoneStep (apt : Apartment) (fetchPhone : Bool)
    (ph : Option String) : Apartment :=
  if fetchPhone && !(apt.post_id == "") then phoneVal apt ph
  else apt

/-- OLXClient.enrich_apartment_data (src/src/core/olx_api.py, lines
    483-527): when the record has a detail url the fetched dict is
    applied, then the phone branch runs; errors never escape, a failed
    detail fetch contributes the empty dict. -/
def enrichApartment (apt : Apartment) (page : DetailPage)
    (fetchPhone : Bool) (phoneResult : Option String) : Apartment :=
  phoneStep
    (if apt.url ≠ "" then applyDetail apt (fetchDetailPageData page)
     else apt)
    fetchPhone phoneResult

/-- Field equations of the copy loop. -/
theorem applyDetail_fields (apt : Apartment) (d : DetailData) :
    (applyDetail apt d).floor = (match d.floor? with
      | some v => some v
      | none => apt.floor) ∧
    (applyDetail apt d).total_floors = (match d.total_floors? with
      | some v => some v
      | none => apt.total_floors) ∧
    (applyDetail apt d).rooms = (match d.rooms? with
      | some v => some v
      | none => apt.rooms) ∧
    (applyDetail apt d).furnished = (match d.furnished? with
      | some v => some v
      | none => apt.furnished) ∧
    (applyDetail apt d).watch_count = (match d.watch_count? with
      | some v => v
      | none => apt.watch_count) ∧
    (applyDetail apt d).contact_phone = apt.contact_phone := by
  rcases d with ⟨desc, phs, fl, tf, rm, fu, tg, wc⟩
  refine ⟨?_, ?_, ?_, ?_, ?_, ?_⟩ <;>
    (cases desc <;> cases phs <;> cases fl <;> cases tf <;> cases rm <;>
      cases fu <;> cases tg <;> cases wc <;> rfl)

/-- Field equations of the phone branch. -/
theorem phoneStep_fields (a : Apartment) (fp : Bool) (ph : Option String) :
    (phoneStep a fp ph).floor = a.floor ∧
    (phoneStep a fp ph).total_floors = a.total_floors ∧
    (phoneStep a fp ph).rooms = a.rooms ∧
    (phoneStep a fp ph).furnished = a.furnished ∧
    (phoneStep a fp ph).watch_count = a.watch_count ∧
    (a.contact_phone.isSome → (phoneStep a fp ph).contact_phone.isSome) := by
  have hval : (phoneVal a ph).floor = a.floor ∧
      (phoneVal a ph).total_floors = a.total_floors ∧
      (phoneVal a ph).rooms = a.rooms ∧
      (phoneVal a ph).furnished = a.furnished ∧
      (phoneVal a ph).watch_count = a.watch_count ∧
      (a.contact_phone.isSome → (phoneVal a ph).contact_phone.isSome) := by
    cases ph with
    | none => exact ⟨rfl, rfl, rfl, rfl, rfl, fun h => h⟩
    | some p =>
      by_cases hp : p ≠ ""
      · simp only [phoneVal]
        rw [if_pos hp]
        exact ⟨rfl, rfl, rfl, rfl, rfl, fun _ => rfl⟩
      · simp only [phoneVal]
        rw [if_neg hp]
        exact ⟨rfl, rfl, rfl, rfl, rfl, fun h => h⟩
  unfold phoneStep
  by_cases hc : (fp && !(a.post_id == "")) = true
  · rw [if_pos hc]
    exact hval
  · rw [if_neg hc]
    exact ⟨rfl, rfl, rfl, rfl, rfl, fun h => h⟩

/-- Record with a known watch count and a detail url. -/
def aptWatch : Apartment :=
  { post_id := "w1", name := "flat", watch_count := some 5,
    url := "https://www.olx.ua/obyavlenie/w1" }

/-- Detail page whose markup lacks the watch-count element. -/
def pageNoWatch : DetailPage := { descText? := some "nice flat" }

/-- C9: counterexample.  The claim says a field holding a known value
    before enrichment still holds a known value after; but when the
    watch element is absent from the detail page, fetch_detail_page_data
    stores an explicit None under the watch_count key and enrichment
    copies it onto the record, downgrading the known count 5 to
    unknown. -/
theorem enrich_watch_count_downgrade_cex :
    aptWatch.watch_count = some 5 ∧
    (enrichApartment aptWatch pageNoWatch false none).watch_count =
      none :=
  ⟨rfl, by decide⟩

/-- C9 (amended): enrichment never fails fatally — a failed detail
    fetch or an absent url returns the record unchanged when no phone
    fetch was requested — and never downgrades floor, total floors,
    rooms, furnished or contact phone; but watch_count is reset to
    unknown whenever the record has a detail url, the fetch succeeds
    and the page lacks the watch-count element, even if a count was
    known before. -/
theorem enrich_upgrade_spec (apt : Apartment) (page : DetailPage)
    (fp : Bool) (ph : Option String) :
    (apt.floor.isSome → (enrichApartment apt page fp ph).floor.isSome) ∧
    (apt.total_floors.isSome →
      (enrichApartment apt page fp ph).total_floors.isSome) ∧
    (apt.rooms.isSome → (enrichApartment apt page fp ph).rooms.isSome) ∧
    (apt.furnished.isSome →
      (enrichApartment apt page fp ph).furnished.isSome) ∧
    (apt.contact_phone.isSome →
      (enrichApartment apt page fp ph).contact_phone.isSome) ∧
    (page.fetchFails = true → enrichApartment apt page false ph = apt) ∧
    (apt.url ≠ "" → page.fetchFails = false → page.watchText? = none →
      (enrichApartment apt page fp ph).watch_count = none) ∧
    (apt.url = "" → enrichApartment apt page false ph = apt) := by
  have hph := phoneStep_fields
    (if apt.url ≠ "" then applyDetail apt (fetchDetailPageData page)
     else apt) fp ph
  refine ⟨?_, ?_, ?_, ?_, ?_, ?_, ?_, ?_⟩
  · intro h
    show (phoneStep _ fp ph).floor.isSome
    rw [hph.1]
    by_cases hu : apt.url ≠ ""
    · rw [if_pos hu, (applyDetail_fields apt _).1]
      cases hfl : (fetchDetailPageData page).floor? with
      | some v => rfl
      | none => exact h
    · rw [if_neg hu]
      exact h
  · intro h
    show (phoneStep _ fp ph).total_floors.isSome
    rw [hph.2.1]
    by_cases hu : apt.url ≠ ""
    · rw [if_pos hu, (applyDetail_fields apt _).2.1]
      cases hfl : (fetchDetailPageData page).total_floors? with
      | some v => rfl
      | none => exact h
    · rw [if_neg hu]
      exact h
  · intro h
    show (phoneStep _ fp ph).rooms.isSome
    rw [hph.2.2.1]
    by_cases hu : apt.url ≠ ""
    · rw [if_pos hu, (applyDetail_fields apt _).2.2.1]
      cases hfl : (fetchDetailPageData page).rooms? with
      | some v => rfl
      | none => exact h
    · rw [if_neg hu]
      exact h
  · intro h
    show (phoneStep _ fp ph).furnished.isSome
    rw [hph.2.2.2.1]
    by_cases hu : apt.url ≠ ""
    · rw [if_pos hu, (applyDetail_fields apt _).2.2.2.1]
      cases hfl : (fetchDetailPageData page).furnished? with
      | some v => rfl
      | none => exact h
    · rw [if_neg hu]
      exact h
  · intro h
    show (phoneStep _ fp ph).contact_phone.isSome
    refine hph.2.2.2.2.2 ?_
    by_cases hu : apt.url ≠ ""
    · rw [if_pos hu, (applyDetail_fields apt _).2.2.2.2.2]
      exact h
    · rw [if_neg hu]
      exact h
  · intro hf
    have hd : fetchDetailPageData page = {} := by
      unfold fetchDetailPageData
      rw [if_pos hf]
    show phoneStep _ false ph = apt
    rw [hd]
    have happ : applyDetail apt {} = apt := rfl
    rw [happ, ite_self]
    rfl
  · intro hu hf hw
    have hwc : (fetchDetailPageData page).watch_count? = some none := by
      unfold fetchDetailPageData
      rw [if_neg (by simp [hf]), hw]
    show (phoneStep _ fp ph).watch_count = none
    rw [hph.2.2.2.2.1, if_pos hu, (applyDetail_fields apt _).2.2.2.2.1,
      hwc]
  · intro hu
    show phoneStep _ false ph = apt
    rw [if_neg (fun hne => hne hu)]
    rfl

theorem enrich_upgrade_spec_witness :
    (enrichApartment
        { post_id := "w2", floor := some 3, url := "https://x" }
        { fetchFails := true } false none).floor.isSome ∧
    enrichApartment
        { post_id := "w2", floor := some 3, url := "https://x" }
        { fetchFails := true } false none =
      { post_id := "w2", floor := some 3, url := "https://x" } := by
  constructor
  · exact (enrich_upgrade_spec
      { post_id := "w2", floor := some 3, url := "https://x" }
      { fetchFails := true } false none).1 (by decide)
  · exact (enrich_upgrade_spec
      { post_id := "w2", floor := some 3, url := "https://x" }
      { fetchFails := true } false none).2.2.2.2.2.1 rfl

/-! ## Page fetcher retry policy (src/src/core/olx_api.py, lines 148-171)

    fetch_page is wrapped by the tenacity retry decorator built with
    stop_after_attempt(3), wait_exponential(multiplier=1, min=2, max=10)
    and retry_if_exception_type((aiohttp.ClientError,
    asyncio.TimeoutError)).  The body raises for non-2xx responses via
    raise_for_status, whose ClientResponseError is a subclass of
    aiohttp.ClientError.  The network is modelled by an oracle giving
    the outcome of each numbered attempt. -/

/-- Failure modes of one fetch attempt.  timeout stands for
    asyncio.TimeoutError; connError for a connection-level
    aiohttp.ClientError; httpStatus for the ClientResponseError raised
    by raise_for_status on a non-2xx status, a ClientError subclass;
    nonClient for any exception outside the two retried classes. -/
inductive FetchError
  | timeout
  | connError
  | httpStatus (code : Nat)
  | nonClient
  deriving Repr, DecidableEq

/-- The retry predicate retry_if_exception_type((aiohttp.ClientError,
    asyncio.TimeoutError)): ClientError covers connection errors and
    every HTTP status error. -/
def isRetryable : FetchError → Bool
  | .timeout => true
  | .connError => true
  | .httpStatus _ => true
  | .nonClient => false

/-- wait_exponential(multiplier=1, min=2, max=10): the wait slept after
    failed attempt n is 2 to the n clamped into the interval 2 to 10. -/
def backoffWait (attempt : Nat) : Nat := max 2 (min (2 ^ attempt) 10)

/-- Retry loop of the tenacity decorator: run the attempt numbered n
    with r tries left in the budget; a retryable failure with budget
    left sleeps the backoff wait and retries, any other failure
    propagates.  Returns the outcome and the backoff waits slept. -/
def retryLoop (oracle : Nat → Except FetchError String) :
    Nat → Nat → Except FetchError String × List Nat
  | _, 0 => (.error .nonClient, [])
  | n, 1 => (oracle n, [])
  | n, r + 2 =>
    match oracle n with
    | .ok s => (.ok s, [])
    | .error e =>
      if isRetryable e then
        ((retryLoop oracle (n + 1) (r + 1)).1,
          backoffWait n :: (retryLoop oracle (n + 1) (r + 1)).2)
      else (.error e, [])

/-- OLXClient construction parameters (src/src/core/olx_api.py, lines
    26-48); max_retries is stored on the client instance. -/
structure OLXClient where
  base_url : String := ""
  user_agent : String := ""
  max_retries : Nat := 3

/-- OLXClient.fetch_page: the decorated fetch.  The decorator carries
    the literal stop_after_attempt(3); the stored max_retries field does
    not reach it. -/
def OLXClient.fetchPage (_c : OLXClient)
    (oracle : Nat → Except FetchError String) : Except FetchError String :=
  (retryLoop oracle 1 3).1

/-- Backoff waits slept during one fetch_page call. -/
def OLXClient.fetchWaits (_c : OLXClient)
    (oracle : Nat → Except FetchError String) : List Nat :=
  (retryLoop oracle 1 3).2

/-- Attempt oracle raising HTTP 400 on the first attempt only. -/
def oracle400 : Nat → Except FetchError String :=
  fun n => if n = 1 then .error (.httpStatus 400) else .ok "page"

/-- Attempt oracle raising a non-client exception on every attempt. -/
def oracleNC : Nat → Except FetchError String :=
  fun _ => .error .nonClient

/-- C5: counterexample.  The claim says HTTP 4xx responses other than
    rate-limit are never retried and propagate on the first attempt,
    and that the attempt budget is the max_retries value the client is
    constructed with.  For a client constructed with max_retries = 1, a
    fetch whose first attempt raises HTTP 400 is nevertheless retried
    (ClientResponseError is an aiohttp.ClientError) and succeeds on the
    second attempt after a backoff sleep. -/
theorem fetch_retry_claim_cex :
    OLXClient.fetchPage { max_retries := 1 } oracle400 = .ok "page" ∧
    OLXClient.fetchWaits { max_retries := 1 } oracle400 = [2] :=
  ⟨rfl, rfl⟩

/-- C5 (amended): fetch_page retries on timeouts and on every
    aiohttp.ClientError — HTTP status errors such as 4xx included — up
    to 3 attempts, a literal in the decorator independent of the
    configured max_retries, with exponential backoff waits
    max 2 (min (2 pow n) 10), i.e. 2 then 4; only failures outside the
    two retried exception classes propagate immediately without retry. -/
theorem fetch_retry_policy_spec (c : OLXClient)
    (oracle : Nat → Except FetchError String) :
    (∀ s, oracle 1 = .ok s → c.fetchPage oracle = .ok s) ∧
    (∀ e, oracle 1 = .error e → isRetryable e = false →
      c.fetchPage oracle = .error e ∧ c.fetchWaits oracle = []) ∧
    (∀ e s, oracle 1 = .error e → isRetryable e = true →
      oracle 2 = .ok s →
      c.fetchPage oracle = .ok s ∧ c.fetchWaits oracle = [2]) ∧
    (∀ e1 e2 e3, oracle 1 = .error e1 → isRetryable e1 = true →
      oracle 2 = .error e2 → isRetryable e2 = true →
      oracle 3 = .error e3 →
      c.fetchPage oracle = .error e3 ∧ c.fetchWaits oracle = [2, 4]) ∧
    (∀ c2 : OLXClient, c.fetchPage oracle = c2.fetchPage oracle) := by
  have h13 : retryLoop oracle 1 3 =
      match oracle 1 with
      | .ok s => (.ok s, [])
      | .error e =>
        if isRetryable e then
          ((retryLoop oracle 2 2).1,
            backoffWait 1 :: (retryLoop oracle 2 2).2)
        else (.error e, []) := rfl
  have h22 : retryLoop oracle 2 2 =
      match oracle 2 with
      | .ok s => (.ok s, [])
      | .error e =>
        if isRetryable e then
          ((retryLoop oracle 3 1).1,
            backoffWait 2 :: (retryLoop oracle 3 1).2)
        else (.error e, []) := rfl
  have h31 : retryLoop oracle 3 1 = (oracle 3, []) := rfl
  refine ⟨?_, ?_, ?_, ?_, fun c2 => rfl⟩
  · intro s h
    show (retryLoop oracle 1 3).1 = .ok s
    rw [h13, h]
  · intro e h hr
    have hv : retryLoop oracle 1 3 = (.error e, []) := by
      rw [h13, h]
      simp [hr]
    exact ⟨by show (retryLoop oracle 1 3).1 = _; rw [hv],
      by show (retryLoop oracle 1 3).2 = _; rw [hv]⟩
  · intro e s h hr h2
    have hv : retryLoop oracle 1 3 = (.ok s, [backoffWait 1]) := by
      rw [h13, h]
      simp [hr, h22, h2]
    refine ⟨by show (retryLoop oracle 1 3).1 = _; rw [hv], ?_⟩
    show (retryLoop oracle 1 3).2 = [2]
    rw [hv]
    have : backoffWait 1 = 2 := by decide
    rw [this]
  · intro e1 e2 e3 h1 hr1 h2 hr2 h3
    have hv : retryLoop oracle 1 3 =
        (.error e3, [backoffWait 1, backoffWait 2]) := by
      rw [h13, h1]
      simp [hr1, h22, h2, hr2, h31, h3]
    refine ⟨by show (retryLoop oracle 1 3).1 = _; rw [hv], ?_⟩
    show (retryLoop oracle 1 3).2 = [2, 4]
    rw [hv]
    have : [backoffWait 1, backoffWait 2] = [2, 4] := by decide
    rw [this]

theorem fetch_retry_policy_spec_witness :
    OLXClient.fetchPage {} oracleNC = .error FetchError.nonClient ∧
    OLXClient.fetchWaits {} oracleNC = [] :=
  (fetch_retry_policy_spec {} oracleNC).2.1 FetchError.nonClient rfl rfl

theorem apartment_identity_eq_spec_witness :
    aptBeq aptA aptB = true ∧ aptHash aptA = aptHash aptB ∧
    aptB ∉ findNewApartments [aptB] [aptA] := by
  refine ⟨?_, ?_, ?_⟩
  · exact (apartment_identity_eq_spec.1 aptA aptB).mpr (by decide)
  · exact apartment_identity_eq_spec.2.1 aptA aptB (by decide)
  · exact apartment_identity_eq_spec.2.2 [aptB] [aptA] aptB aptA
      (by decide) (by decide)

end Olx
